import Mathlib

/-!
Verification development for the mailbot_v26 fact-extraction and validation
pipeline.  Python strings are shallowly embedded as `List Char`; each Lean
definition mirrors one Python function of the repository (file and line
references are given in the doc comments).  Unicode-dependent Python
primitives (`str.isspace`, `str.isprintable`, `str.lower`, `\w`, `\d`) are
modelled on the character classes actually reachable in this code base:
ASCII plus the Cyrillic block and the common Unicode space/format
characters.
-/

set_option maxRecDepth 16000

/-- Python strings, embedded as lists of characters. -/
abbrev PyStr := List Char

/-- Characters treated as whitespace by Python's `str.strip`, `str.split()`
and the regex class `\s` (ASCII whitespace, the C0 separators, NEL, NBSP and
the Unicode space separators). -/
def isSpacePy (c : Char) : Bool :=
  c = ' ' ∨ c = '\t' ∨ c = '\n' ∨ c = '\r' ∨ c = '\x0b' ∨ c = '\x0c' ∨
  c = '\x1c' ∨ c = '\x1d' ∨ c = '\x1e' ∨ c = '\x1f' ∨ c = '\x85' ∨ c = '\xa0' ∨
  c = ' ' ∨ (0x2000 ≤ c.toNat ∧ c.toNat ≤ 0x200a) ∨ c = ' ' ∨
  c = ' ' ∨ c = ' ' ∨ c = ' ' ∨ c = '　'

/-- Python `str.isprintable`, modelled on the characters reachable here:
space is printable, control characters (C0, DEL, C1), non-space-ASCII
whitespace and the common format characters are not. -/
def isPrintablePy (c : Char) : Bool :=
  c = ' ' ∨
  (¬ (c.toNat < 0x20) ∧ ¬ (0x7f ≤ c.toNat ∧ c.toNat ≤ 0xa0) ∧
   ¬ isSpacePy c ∧ ¬ (0x200b ≤ c.toNat ∧ c.toNat ≤ 0x200f) ∧
   c ≠ ' ' ∧ c ≠ ' ' ∧ c ≠ '⁠' ∧ c ≠ '﻿')

/-- Python `str.lower` as a character map (ASCII and Cyrillic, the alphabets
appearing in this code base). -/
def toLowerPy (c : Char) : Char :=
  if 'A' ≤ c ∧ c ≤ 'Z' then Char.ofNat (c.toNat + 32)
  else if 'А' ≤ c ∧ c ≤ 'Я' then Char.ofNat (c.toNat + 32)
  else if c = 'Ё' then 'ё'
  else c

/-- Python `str.upper` as a character map (ASCII and Cyrillic). -/
def toUpperPy (c : Char) : Char :=
  if 'a' ≤ c ∧ c ≤ 'z' then Char.ofNat (c.toNat - 32)
  else if 'а' ≤ c ∧ c ≤ 'я' then Char.ofNat (c.toNat - 32)
  else if c = 'ё' then 'Ё'
  else c

/-- The regex class `\w` (word characters), modelled as ASCII alphanumerics,
the underscore and the Cyrillic block. -/
def isWordCharPy (c : Char) : Bool :=
  c.isAlphanum ∨ c = '_' ∨ (0x400 ≤ c.toNat ∧ c.toNat ≤ 0x4ff)

/-- Python `str.lower` on a whole string. -/
def pyLower (s : PyStr) : PyStr := s.map toLowerPy

/-- Python `str.upper` on a whole string. -/
def pyUpper (s : PyStr) : PyStr := s.map toUpperPy

/-- Python `str.strip()` (no arguments): drop whitespace from both ends. -/
def pyStrip (s : PyStr) : PyStr :=
  ((s.dropWhile isSpacePy).reverse.dropWhile isSpacePy).reverse

/-- Python `str.strip(chars)`: drop the listed characters from both ends. -/
def pyStripChars (chars : PyStr) (s : PyStr) : PyStr :=
  ((s.dropWhile (· ∈ chars)).reverse.dropWhile (· ∈ chars)).reverse

/-- Python `str.split(sep)` for a one-character separator; keeps empty
pieces, and the empty string splits to `[""]`. -/
def splitPy (sep : Char) : PyStr → List PyStr
  | [] => [[]]
  | c :: rest =>
    if c = sep then [] :: splitPy sep rest
    else
      match splitPy sep rest with
      | s :: ss => (c :: s) :: ss
      | [] => [[c]]

/-- Python `sep.join(pieces)`. -/
def joinSep (sep : PyStr) : List PyStr → PyStr
  | [] => []
  | [s] => s
  | s :: rest => s ++ sep ++ joinSep sep rest

/-- Maximal runs of characters satisfying `p` (the semantics of
`re.findall` for a pattern of the form `[class]+`). -/
def runsOfAux (p : Char → Bool) : List Char → List Char → List PyStr
  | [], acc => if acc = [] then [] else [acc.reverse]
  | c :: rest, acc =>
    if p c then runsOfAux p rest (c :: acc)
    else if acc = [] then runsOfAux p rest []
    else acc.reverse :: runsOfAux p rest []

/-- Maximal runs of characters satisfying `p`. -/
def runsOf (p : Char → Bool) (l : PyStr) : List PyStr := runsOfAux p l []

/-- `re.findall(r"\d+", s)`: the maximal digit runs of `s`. -/
def digitRuns (s : PyStr) : List PyStr := runsOf Char.isDigit s

/-- Python `str.split()` (no arguments): whitespace-separated words. -/
def splitWS (s : PyStr) : List PyStr := runsOf (fun c => ¬ isSpacePy c) s

/-- First index at which `needle` occurs in `hay` (Python `str.find`,
restricted to found/not-found). -/
def findSub (needle : PyStr) : PyStr → Option Nat
  | [] => if needle = [] then some 0 else none
  | c :: rest =>
    if needle = (c :: rest).take needle.length then some 0
    else (findSub needle rest).map (· + 1)

/-- Python's `needle in hay` substring test. -/
def containsSub (needle hay : PyStr) : Bool := (findSub needle hay).isSome

/-- Python slicing `s[:k]` for a possibly negative bound `k`. -/
def pySliceTo (k : Int) (s : PyStr) : PyStr :=
  if 0 ≤ k then s.take k.toNat else s.take (s.length - (-k).toNat)

/-- Python slicing `s[-n:]`: the last `min n (length s)` characters for
`n > 0`; for `n = 0` the index `-0` is `0`, so the whole string. -/
def pyTakeLast (n : Nat) (s : PyStr) : PyStr :=
  if n = 0 then s else s.drop (s.length - n)

/-- Exact comparison `p.1 / p.2 < q.1 / q.2` of two non-negative fractions
with positive denominators, by cross-multiplication.  Similarity scores are
embedded as exact (numerator, denominator) pairs; for the tiny token-set
sizes arising in this code base the Python float comparison agrees with the
exact rational one (a double rounds fractions with such denominators
faithfully). -/
def ratPairLt (p q : Nat × Nat) : Bool := p.1 * q.2 < q.1 * p.2

section DateRegex

/-- Separators accepted by the date pattern `[-./]`. -/
def isDateSep (c : Char) : Bool := c = '.' ∨ c = '/' ∨ c = '-'

/-- Candidate digit-group widths `(a, b, c)` for
`\d{1,2}[-./]\d{1,2}[-./]\d{2,4}`, in the greedy backtracking order of the
regex engine (longer alternatives first). -/
def dateShapes : List (Nat × Nat × Nat) :=
  [(2, 2, 4), (2, 2, 3), (2, 2, 2), (2, 1, 4), (2, 1, 3), (2, 1, 2),
   (1, 2, 4), (1, 2, 3), (1, 2, 2), (1, 1, 4), (1, 1, 3), (1, 1, 2)]

/-- `l` has exactly `len` digits starting at offset `start`. -/
def digitsAt (l : PyStr) (start len : Nat) : Bool :=
  ((l.drop start).take len).length = len ∧
  ((l.drop start).take len).all Char.isDigit

/-- `l` has a date separator at offset `i`. -/
def sepAt (l : PyStr) (i : Nat) : Bool :=
  match l.get? i with
  | some c => isDateSep c
  | none => false

/-- The date pattern matches at the start of `l` with digit groups of widths
`(a, b, c)`. -/
def dmyAt (l : PyStr) (abc : Nat × Nat × Nat) : Bool :=
  digitsAt l 0 abc.1 ∧ sepAt l abc.1 ∧ digitsAt l (abc.1 + 1) abc.2.1 ∧
  sepAt l (abc.1 + 1 + abc.2.1) ∧ digitsAt l (abc.1 + abc.2.1 + 2) abc.2.2

/-- Length of the leftmost-longest match of the date pattern anchored at the
start of `l`, if any. -/
def matchDateLen (l : PyStr) : Option Nat :=
  (dateShapes.find? (fun abc => dmyAt l abc)).map
    (fun abc => abc.1 + abc.2.1 + abc.2.2 + 2)

/-- Scanning loop of `re.findall` for the date pattern: try to match at each
position, consume matches, advance one character on failure.  `fuel` bounds
the number of steps; the wrapper passes the string length. -/
def dateScan : Nat → PyStr → List PyStr
  | 0, _ => []
  | _ + 1, [] => []
  | f + 1, c :: rest =>
    match matchDateLen (c :: rest) with
    | some n => (c :: rest).take n :: dateScan f ((c :: rest).drop n)
    | none => dateScan f rest

/-- `re.findall(r"\d{1,2}[-./]\d{1,2}[-./]\d{2,4}", s)`. -/
def dateFindall (s : PyStr) : List PyStr := dateScan s.length s

/-- Normalize date separators to `.` (used by both validator modules). -/
def normDate (d : PyStr) : PyStr :=
  d.map (fun c => if c = '/' ∨ c = '-' then '.' else c)

end DateRegex

namespace Validator

/-- `clean_none` (src/mailbot_v26/bot_core/validator.py lines 11-22):
remove every `|`-segment containing `NONE` case-insensitively, strip the
kept segments and rejoin with `" | "`. -/
def clean_none (text : PyStr) : PyStr :=
  if text = [] ∨ pyUpper (pyStrip text) = "NONE".toList then []
  else
    joinSep " | ".toList
      (((splitPy '|' text).filter
          (fun seg => ¬ containsSub "NONE".toList (pyUpper seg))).map pyStrip)

/-- `validate_numbers` (validator.py lines 25-32): the set of digit runs of
the summary must be a subset of the digit runs of the original (subset of
sets, embedded as list membership of every element; an empty summary set
passes trivially in both). -/
def validate_numbers (summary original : PyStr) : Bool :=
  (digitRuns summary).all (fun r => decide (r ∈ digitRuns original))

/-- `validate_dates` (validator.py lines 35-47): every date-shaped token of
the summary must, after separator normalization, equal some normalized
date-shaped token of the original. -/
def validate_dates (summary original : PyStr) : Bool :=
  (dateFindall summary).all (fun d =>
    (dateFindall original).any (fun o => decide (normDate d = normDate o)))

/-- Negation markers scanned for by `check_negation`. -/
def NEGATIONS : List PyStr :=
  ["не".toList, "нет".toList, "ни".toList, "без".toList, "отказ".toList,
   "отмена".toList, "cancel".toList]

/-- `check_negation` (validator.py lines 50-64): the fact is negated if its
first lower-cased occurrence in the text has a negation marker within the 50
characters preceding it. -/
def check_negation (text fact : PyStr) : Bool :=
  if fact = [] then false
  else
    let tl := pyLower text
    match findSub (pyLower fact) tl with
    | none => false
    | some pos =>
      let ws := pos - 50
      let context := (tl.drop ws).take (pos - ws)
      NEGATIONS.any (fun n => containsSub n context)

/-- `jaccard_similarity` (validator.py lines 67-75): Jaccard similarity of
the lower-cased whitespace-token sets.  The return value
`len(intersection) / len(union)` is embedded as the exact fraction
(numerator, denominator); the `0.0` of the empty guard is `(0, 1)`. -/
def jaccard_similarity (text1 text2 : PyStr) : Nat × Nat :=
  let words1 := (splitWS (pyLower text1)).dedup
  let words2 := (splitWS (pyLower text2)).dedup
  if words1 = [] ∨ words2 = [] then (0, 1)
  else ((words1.filter (fun w => decide (w ∈ words2))).length,
        ((words1 ++ words2).dedup).length)

/-- Scanning loop of `re.search(r"ДЕЙСТВИЕ:\s*(\w+)", s, re.IGNORECASE)`:
returns the first captured verb, in original case.  `fuel` bounds the scan;
the wrapper passes the string length. -/
def findActionScan : Nat → PyStr → Option PyStr
  | 0, _ => none
  | _ + 1, [] => none
  | f + 1, c :: rest =>
    if pyLower ((c :: rest).take 9) = "действие:".toList then
      let after := (c :: rest).drop 9
      let word :=
        (after.drop ((after.takeWhile isSpacePy).length)).takeWhile isWordCharPy
      if word = [] then findActionScan f rest else some word
    else findActionScan f rest

/-- `re.search(r"ДЕЙСТВИЕ:\s*(\w+)", s, re.IGNORECASE)`, group 1. -/
def findAction (s : PyStr) : Option PyStr := findActionScan s.length s

/-- Scanning loop of `re.sub(r"\|\s*ДЕЙСТВИЕ:[^|]+", "", s)` (case
sensitive): delete every `|`-introduced action segment.  `fuel` bounds the
scan; the wrapper passes the string length. -/
def stripActionScan : Nat → PyStr → PyStr
  | 0, l => l
  | _ + 1, [] => []
  | f + 1, c :: rest =>
    if c = '|' then
      let after := rest.drop ((rest.takeWhile isSpacePy).length)
      if after.take 9 = "ДЕЙСТВИЕ:".toList then
        let body := (after.drop 9).takeWhile (fun ch => ¬ ch = '|')
        if body = [] then c :: stripActionScan f rest
        else stripActionScan f ((after.drop 9).drop body.length)
      else c :: stripActionScan f rest
    else c :: stripActionScan f rest

/-- `re.sub(r"\|\s*ДЕЙСТВИЕ:[^|]+", "", s)`. -/
def stripAction (s : PyStr) : PyStr := stripActionScan s.length s

/-- The tail of `validate_summary`: the similarity gate
(validator.py lines 103-107). -/
def vsTail (cleaned original : PyStr) (minSim : Nat × Nat) : Option PyStr :=
  if ratPairLt (jaccard_similarity cleaned original) minSim then none
  else some cleaned

/-- `validate_summary` (validator.py lines 78-107).  `minSim` is the
`min_similarity` parameter embedded as an exact fraction (default `0.35` at
call sites, written `(35, 100)` in the theorems below). -/
def validate_summary (summary original : PyStr) (minSim : Nat × Nat) : Option PyStr :=
  if summary = [] ∨ pyUpper (pyStrip summary) = "NONE".toList then none
  else
    let cleaned := clean_none summary
    if cleaned = [] then none
    else if validate_numbers cleaned original then
      if validate_dates cleaned original then
        match findAction cleaned with
        | some verb =>
          if check_negation original verb then
            let c2 := pyStrip (pyStripChars "|".toList (pyStrip (stripAction cleaned)))
            if c2 = [] then none else vsTail c2 original minSim
          else vsTail cleaned original minSim
        | none => vsTail cleaned original minSim
      else none
    else none

end Validator

namespace Validation

/-- `clean_none` (src/mailbot_v26/bot_core/validation.py lines 17-25):
like the validator-module version, but non-empty stripped segments are
selected before the `none` filter, so whitespace-only segments are also
dropped. -/
def clean_none (text : PyStr) : PyStr :=
  if text = [] then []
  else if pyLower (pyStrip text) = "none".toList then []
  else
    joinSep " | ".toList
      ((((splitPy '|' text).map pyStrip).filter (fun seg => ¬ seg = [])).filter
        (fun seg => ¬ containsSub "none".toList (pyLower seg)))

/-- Scanning loop of `re.findall(r"\d+[\d\s]*[\.,]?\d*", s)` used by
`_extract_numbers` (validation.py lines 28-29): a maximal run of digits and
whitespace starting with a digit, optionally followed by one `.` or `,` and
further digits.  `fuel` bounds the scan; the wrapper passes the length. -/
def extractNumScan : Nat → PyStr → List PyStr
  | 0, _ => []
  | _ + 1, [] => []
  | f + 1, c :: rest =>
    if c.isDigit then
      let body := (c :: rest).takeWhile (fun ch => ch.isDigit ∨ isSpacePy ch)
      match (c :: rest).drop body.length with
      | p :: r2 =>
        if p = '.' ∨ p = ',' then
          let tail := r2.takeWhile Char.isDigit
          (body ++ p :: tail) :: extractNumScan f (r2.drop tail.length)
        else body :: extractNumScan f (p :: r2)
      | [] => [body]
    else extractNumScan f rest

/-- `_extract_numbers` (validation.py lines 28-29): the regex matches, each
stripped. -/
def extract_numbers (s : PyStr) : List PyStr :=
  (extractNumScan s.length s).map pyStrip

/-- `validate_numbers` (validation.py lines 32-39): every extracted number
string must occur as a raw substring of the original text. -/
def validate_numbers (summary original : PyStr) : Bool :=
  (extract_numbers summary).all (fun n => containsSub n original)

/-- `validate_dates` (validation.py lines 60-71): every normalized
date-shaped token of the summary must be among the normalized date-shaped
tokens of the original. -/
def validate_dates (summary original : PyStr) : Bool :=
  let summary_dates := (dateFindall summary).map normDate
  if summary_dates = [] then true
  else
    let original_dates := (dateFindall original).map normDate
    summary_dates.all (fun d => decide (d ∈ original_dates))

/-- `STOP_WORDS` (validation.py lines 46-57). -/
def STOP_WORDS : List PyStr :=
  ["на".toList, "до".toList, "и".toList, "в".toList, "к".toList,
   "по".toList, "за".toList, "с".toList, "от".toList, "просим".toList]

/-- The Cyrillic vowel endings stripped by the tokenizer. -/
def CYR_VOWELS : PyStr := "аеёиоуыэюяй".toList

/-- The last character of a token is a strippable Cyrillic vowel. -/
def lastIsCyrVowel (t : PyStr) : Bool :=
  match t.getLast? with
  | some c => c ∈ CYR_VOWELS
  | none => false

/-- The `while len(token) > 3 and token[-1] in ...` suffix-stemming loop of
the tokenizer (validation.py lines 80-81).  `fuel` bounds the iterations;
the wrapper passes the token length. -/
def vowelStrip : Nat → PyStr → PyStr
  | 0, t => t
  | f + 1, t =>
    if 3 < t.length ∧ lastIsCyrVowel t then vowelStrip f t.dropLast else t

/-- `_tokenize` inside `jaccard_similarity` (validation.py lines 75-85):
word-or-dot runs of the lower-cased text, with `ё` folded to `е`, `.`/`_`
stripped from the ends, Cyrillic vowel endings stemmed, empty tokens and
stop words dropped; a set (embedded as a deduplicated list). -/
def tokenizeV (text : PyStr) : List PyStr :=
  let raw := runsOf (fun c => isWordCharPy c ∨ c = '.') (pyLower text)
  ((raw.map (fun r =>
      let t := pyStripChars "._".toList
        (r.map (fun c => if c = 'ё' then 'е' else c))
      vowelStrip t.length t)).filter
    (fun t => ¬ t = [] ∧ ¬ t ∈ STOP_WORDS)).dedup

/-- `jaccard_similarity` (validation.py lines 74-93), with the value
embedded as an exact (numerator, denominator) pair as in the validator
module. -/
def jaccard_similarity (text1 text2 : PyStr) : Nat × Nat :=
  let tokens1 := tokenizeV text1
  let tokens2 := tokenizeV text2
  if tokens1 = [] ∨ tokens2 = [] then (0, 1)
  else
    let union := (tokens1 ++ tokens2).dedup
    if union = [] then (0, 1)
    else ((tokens1.filter (fun t => decide (t ∈ tokens2))).length, union.length)

/-- `validate_summary` (validation.py lines 96-107): this variant has no
initial NONE check of its own and no negation step. -/
def validate_summary (summary original : PyStr) (minSim : Nat × Nat) :
    Option PyStr :=
  let cleaned := clean_none summary
  if cleaned = [] then none
  else if validate_numbers cleaned original then
    if validate_dates cleaned original then
      if ratPairLt (jaccard_similarity cleaned original) minSim then none
      else some cleaned
    else none
  else none

end Validation

section Chunker

/-- Loop body of `chunk_text` (src/mailbot_v26/llm/chunker.py lines 11-18).
`fuel` bounds the number of iterations; `chunk_text` passes the length of
the text, which suffices whenever `overlap < size` (otherwise the Python
loop does not terminate either). -/
def chunkLoop (text : PyStr) (size overlap : Nat) : Nat → Nat → List PyStr
  | _, 0 => []
  | start, fuel + 1 =>
    if start < text.length then
      let chunk := pyStrip ((text.drop start).take size)
      let rest := chunkLoop text size overlap (start + size - overlap) fuel
      if chunk = [] then rest else chunk :: rest
    else []

/-- `chunk_text` (src/mailbot_v26/llm/chunker.py lines 3-20): overlapping
fixed-size windows, each stripped, empty windows dropped. -/
def chunk_text (text : PyStr) (size overlap : Nat) : List PyStr :=
  chunkLoop text size overlap 0 text.length

end Chunker

section Sanitize

/-- `BINARY_MARKERS` (src/mailbot_v26/text/sanitize.py lines 7-16). -/
def BINARY_MARKERS : List PyStr :=
  ["ihdr".toList, "idat".toList, "pk".toList, "content_types".toList,
   "=?koi8".toList, "base64".toList, "image/png".toList, "zip".toList]

/-- Characters of the base64 alphabet `[A-Za-z0-9+/]`. -/
def isB64Char (c : Char) : Bool := c.isAlphanum ∨ c = '+' ∨ c = '/'

/-- Run-tracking loop for `BASE64_RUN.search` (sanitize.py line 18): the
regex `[A-Za-z0-9+/]{40,}={0,2}` matches somewhere iff some maximal base64
run has length at least 40. -/
def hasBase64RunAux : PyStr → Nat → Bool
  | [], run => 40 ≤ run
  | c :: rest, run =>
    if isB64Char c then hasBase64RunAux rest (run + 1)
    else (40 ≤ run) ∨ hasBase64RunAux rest 0

/-- `BASE64_RUN.search(data)` as a Boolean. -/
def hasBase64Run (s : PyStr) : Bool := hasBase64RunAux s 0

/-- `is_binaryish` (sanitize.py lines 35-54) for string input (`_to_str` is
the identity on strings).  The float threshold
`non_printable > len(data) * 0.02` is the exact comparison
`50 * non_printable > len(data)` (the doubles involved round faithfully at
these magnitudes). -/
def is_binaryish (data : PyStr) : Bool :=
  if data = [] then false
  else if '\x00' ∈ data then true
  else if BINARY_MARKERS.any (fun m => containsSub m (pyLower data)) then true
  else if hasBase64Run data then true
  else
    let np := (data.filter (fun ch =>
      ¬ (isPrintablePy ch ∨ ch = '\n' ∨ ch = '\r' ∨ ch = '\t'))).length
    5 < np ∧ data.length < 50 * np

/-- `str.replace("\r\n", "\n")`: leftmost, non-overlapping. -/
def replaceCRLF : PyStr → PyStr
  | [] => []
  | [c] => [c]
  | c1 :: c2 :: rest =>
    if c1 = '\r' ∧ c2 = '\n' then '\n' :: replaceCRLF rest
    else c1 :: replaceCRLF (c2 :: rest)

/-- Scanning loop of `re.sub(r"\s+", " ", line)`: replace each maximal
whitespace run by a single space; `inWS` records whether the previous
character was whitespace. -/
def squeezeWSAux : PyStr → Bool → PyStr
  | [], _ => []
  | c :: rest, inWS =>
    if isSpacePy c then
      if inWS then squeezeWSAux rest true else ' ' :: squeezeWSAux rest true
    else c :: squeezeWSAux rest false

/-- `re.sub(r"\s+", " ", line).strip()` (sanitize.py line 75). -/
def collapseWS (line : PyStr) : PyStr := pyStrip (squeezeWSAux line false)

/-- The compact-and-collapse-blanks loop of `sanitize_text` (sanitize.py
lines 72-83); `blank` is the loop's flag. -/
def collapseLines : List PyStr → Bool → List PyStr
  | [], _ => []
  | line :: rest, blank =>
    let compact := collapseWS line
    if compact = [] then
      if blank then collapseLines rest blank
      else [] :: collapseLines rest true
    else compact :: collapseLines rest false

/-- No two adjacent entries of the list are both empty (the shape
`collapseLines` guarantees for its output). -/
def noAdjEmptyB : List PyStr → Bool
  | [] => true
  | [_] => true
  | a :: b :: rest => (¬ a = [] ∨ ¬ b = []) ∧ noAdjEmptyB (b :: rest)

/-- `sanitize_text` (sanitize.py lines 57-88) for string input, `max_len` in
characters.  The final truncation `cleaned[: max_len - 3]` uses Python's
signed slicing (the bound is negative when `max_len < 3`). -/
def sanitize_text (text : PyStr) (maxLen : Nat) : PyStr :=
  let normalized := ((replaceCRLF text).map
      (fun c => if c = '\r' then '\n' else c)).filter (fun c => ¬ c = '\x00')
  let safeLines := ((splitPy '\n' normalized).map
      (pyStripChars ['﻿'])).filter (fun l => ¬ is_binaryish l)
  let cleaned := pyStrip (joinSep ['\n'] (collapseLines safeLines false))
  if maxLen < cleaned.length then
    pySliceTo ((maxLen : Int) - 3) cleaned ++ "...".toList
  else cleaned

end Sanitize

section Formatter

/-- `MAX_LEN` (src/mailbot_v26/formatter.py line 7). -/
def MAX_LEN : Nat := 200

/-- `_trim_segment` (formatter.py lines 10-11). -/
def trim_segment (segment : PyStr) : PyStr :=
  (pyStrip segment).map (fun c => if c = '\n' then ' ' else c)

/-- `format_summary` (formatter.py lines 14-17). -/
def format_summary (parts : List PyStr) : PyStr :=
  (joinSep " | ".toList
    ((parts.filter
      (fun p => ¬ p = [] ∧ ¬ pyUpper (pyStrip p) = "NONE".toList)).map
      trim_segment)).take MAX_LEN

/-- The output-assembly tail of `MessageProcessor._build`
(src/mailbot_v26/pipeline/processor.py lines 76-91): build the line list
from the already-computed header lines, body summary and attachment blocks,
append the service note when no semantic line survived, join with newlines
and strip. -/
def assembleRaw (timestampLine senderLine subjectLine bodySummary : PyStr)
    (attachmentBlocks : List (PyStr × PyStr)) : PyStr :=
  let lines1 := [timestampLine, senderLine, subjectLine, []] ++
    (if bodySummary = [] then [] else [bodySummary])
  let lines2 := lines1 ++ attachmentBlocks.flatMap (fun fb => [[], fb.1, fb.2])
  let lines3 :=
    if ((lines2.drop 3).filter (fun ln => ¬ pyStrip ln = [])).length < 1 then
      lines2 ++ [[], "Служебное письмо. Краткое содержание недоступно.".toList]
    else lines2
  pyStrip (joinSep ['\n'] lines3)

/-- The final length cap of `MessageProcessor._build` (processor.py lines
92-93): keep 3497 characters and append an ellipsis when the result exceeds
3500 characters. -/
def capLen3500 (s : PyStr) : PyStr :=
  if 3500 < s.length then s.take 3497 ++ "...".toList else s

/-- The string `_build` returns, as a function of the assembled parts. -/
def assembleAndCap (timestampLine senderLine subjectLine bodySummary : PyStr)
    (attachmentBlocks : List (PyStr × PyStr)) : PyStr :=
  capLen3500
    (assembleRaw timestampLine senderLine subjectLine bodySummary
      attachmentBlocks)

end Formatter

section Classifier

/-- `_EXTENSION_MAP` (src/mailbot_v26/bot_core/classifier.py lines 17-31). -/
def EXTENSION_MAP : List (PyStr × PyStr) :=
  [(".pdf".toList, "PDF".toList), (".docx".toList, "DOCX".toList),
   (".doc".toList, "DOC".toList), (".xlsx".toList, "XLSX".toList),
   (".xls".toList, "XLS".toList), (".png".toList, "IMAGE".toList),
   (".jpg".toList, "IMAGE".toList), (".jpeg".toList, "IMAGE".toList),
   (".tif".toList, "IMAGE".toList), (".tiff".toList, "IMAGE".toList),
   (".bmp".toList, "IMAGE".toList), (".gif".toList, "IMAGE".toList),
   (".txt".toList, "TEXT".toList)]

/-- `_MIME_MAP` (classifier.py lines 34-46). -/
def MIME_MAP : List (PyStr × PyStr) :=
  [("application/pdf".toList, "PDF".toList),
   ("application/msword".toList, "DOC".toList),
   ("application/vnd.openxmlformats-officedocument.wordprocessingml.document".toList,
    "DOCX".toList),
   ("application/vnd.ms-excel".toList, "XLS".toList),
   ("application/vnd.openxmlformats-officedocument.spreadsheetml.sheet".toList,
    "XLSX".toList),
   ("image/png".toList, "IMAGE".toList),
   ("image/jpeg".toList, "IMAGE".toList),
   ("image/tiff".toList, "IMAGE".toList),
   ("image/gif".toList, "IMAGE".toList),
   ("image/bmp".toList, "IMAGE".toList),
   ("text/plain".toList, "TEXT".toList)]

/-- Dictionary lookup on an association list. -/
def lookupMap (m : List (PyStr × PyStr)) (k : PyStr) : Option PyStr :=
  (m.find? (fun kv => decide (kv.1 = k))).map (fun kv => kv.2)

/-- Magic byte prefixes (classifier.py lines 49-55), as byte values. -/
def PDF_MAGIC : List Nat := [0x25, 0x50, 0x44, 0x46, 0x2d]

/-- ZIP local-file-header magic. -/
def ZIP_MAGIC : List Nat := [0x50, 0x4b, 0x03, 0x04]

/-- OLE compound-file magic (legacy DOC/XLS). -/
def DOC_MAGIC : List Nat := [0xd0, 0xcf, 0x11, 0xe0, 0xa1, 0xb1, 0x1a, 0xe1]

/-- PNG signature. -/
def PNG_MAGIC : List Nat := [0x89, 0x50, 0x4e, 0x47, 0x0d, 0x0a, 0x1a, 0x0a]

/-- JPEG signature. -/
def JPEG_MAGIC : List Nat := [0xff, 0xd8, 0xff]

/-- GIF signature. -/
def GIF_MAGIC : List Nat := [0x47, 0x49, 0x46, 0x38]

/-- TIFF little-endian signature. -/
def TIFF_MAGIC1 : List Nat := [0x49, 0x49, 0x2a, 0x00]

/-- TIFF big-endian signature. -/
def TIFF_MAGIC2 : List Nat := [0x4d, 0x4d, 0x00, 0x2a]

/-- Python `bytes.startswith`. -/
def bytesStartWith (sig head : List Nat) : Bool :=
  decide (head.take sig.length = sig)

/-- A byte is in `_TEXT_PRINTABLE` (classifier.py line 56). -/
def isTextPrintableByte (b : Nat) : Bool :=
  (0x20 ≤ b ∧ b ≤ 0x7e) ∨ b = 0x09 ∨ b = 0x0a ∨ b = 0x0d

/-- `_looks_like_text` (classifier.py lines 136-141); the float threshold
`non_printable / len <= 0.10` is the exact comparison
`10 * non_printable <= len`. -/
def looks_like_text (data : List Nat) : Bool :=
  let sample := data.take 256
  if sample = [] then false
  else
    10 * (sample.filter (fun b => ¬ isTextPrintableByte b)).length ≤
      sample.length

/-- `pathlib.Path(filename).suffix`: last dot of the final path component,
if it is neither leading nor trailing. -/
def pathSuffix (filename : PyStr) : PyStr :=
  let name := match (splitPy '/' filename).getLast? with
    | some n => n
    | none => []
  match name.reverse.findIdx? (fun c => c = '.') with
  | none => []
  | some rj =>
    let i := name.length - 1 - rj
    if 0 < i ∧ i < name.length - 1 then name.drop i else []

/-- `classify_attachment` (classifier.py lines 72-120): MIME map, then
extension map, then magic sniffing, then the plain-text heuristic, else
`UNKNOWN`. -/
def classify_attachment (filename mimeType : PyStr) (contentBytes : List Nat) :
    PyStr :=
  let mime := pyLower mimeType
  match lookupMap MIME_MAP mime with
  | some cat => cat
  | none =>
    let suffix := pyLower (pathSuffix filename)
    match lookupMap EXTENSION_MAP suffix with
    | some cat => cat
    | none =>
      let head := contentBytes.take 16
      if bytesStartWith PDF_MAGIC head then "PDF".toList
      else if bytesStartWith PNG_MAGIC head then "IMAGE".toList
      else if bytesStartWith JPEG_MAGIC head then "IMAGE".toList
      else if bytesStartWith GIF_MAGIC head then "IMAGE".toList
      else if bytesStartWith TIFF_MAGIC1 head ∨ bytesStartWith TIFF_MAGIC2 head
        then "IMAGE".toList
      else if bytesStartWith DOC_MAGIC head then
        if suffix = ".doc".toList then "DOC".toList
        else if suffix = ".xls".toList then "XLS".toList
        else "UNKNOWN".toList
      else if bytesStartWith ZIP_MAGIC head then
        if suffix = ".docx".toList then "DOCX".toList
        else if suffix = ".xlsx".toList then "XLSX".toList
        else "UNKNOWN".toList
      else if ¬ head = [] ∧ looks_like_text contentBytes then "TEXT".toList
      else "UNKNOWN".toList

/-- `classify_by_keywords` (classifier.py lines 123-133): a compatibility
wrapper around `classify_attachment` (no content bytes), returning
confidence `1.0` for a recognized category and `(None, 0.0)` otherwise. -/
def classify_by_keywords (filename textSample contentType : PyStr) :
    Option PyStr × ℚ :=
  let category := classify_attachment filename contentType []
  if category = "UNKNOWN".toList then (none, 0)
  else (some category, 1)

end Classifier

/-- Input of the C8 counterexample: six control characters, then `ab`, a run
of 292 spaces and `cd` (302 characters in all).  The long line is kept on
the first pass (six non-printables in 302 characters are below the 2%
density threshold) but its whitespace-collapsed form is classified as
binary noise on the second pass. -/
def c8Input : PyStr :=
  List.replicate 6 '\x01' ++ "ab".toList ++ List.replicate 292 ' ' ++
    "cd".toList

section ChunkerLemmas

lemma chunkLoop_stop (text : PyStr) (size overlap start fuel : Nat)
    (h : ¬ start < text.length) :
    chunkLoop text size overlap start fuel = [] := by
  cases fuel with
  | zero => rfl
  | succ f => simp [chunkLoop, h]

lemma length_dropWhile_le (p : Char → Bool) (l : PyStr) :
    (l.dropWhile p).length ≤ l.length := by
  induction l with
  | nil => simp
  | cons c rest ih =>
    by_cases hc : p c
    · rw [List.dropWhile_cons_of_pos hc]
      exact Nat.le_succ_of_le ih
    · rw [List.dropWhile_cons_of_neg hc]

lemma length_pyStrip_le (s : PyStr) : (pyStrip s).length ≤ s.length := by
  unfold pyStrip
  calc ((s.dropWhile isSpacePy).reverse.dropWhile isSpacePy).reverse.length
      = ((s.dropWhile isSpacePy).reverse.dropWhile isSpacePy).length := by
        simp
    _ ≤ (s.dropWhile isSpacePy).reverse.length := length_dropWhile_le _ _
    _ = (s.dropWhile isSpacePy).length := by simp
    _ ≤ s.length := length_dropWhile_le _ _

lemma pyStrip_eq_self_of_no_space (s : PyStr)
    (h : ∀ c ∈ s, isSpacePy c = false) : pyStrip s = s := by
  have h1 : s.dropWhile isSpacePy = s := by
    cases s with
    | nil => rfl
    | cons c rest =>
      rw [List.dropWhile_cons_of_neg]
      simp [h c (by simp)]
  unfold pyStrip
  rw [h1]
  have h2 : s.reverse.dropWhile isSpacePy = s.reverse := by
    cases hrev : s.reverse with
    | nil => rfl
    | cons c rest =>
      rw [List.dropWhile_cons_of_neg]
      have hc : c ∈ s := by
        have : c ∈ s.reverse := by rw [hrev]; simp
        simpa using this
      simp [h c hc]
  rw [h2, List.reverse_reverse]

lemma chunkLoop_mem (text : PyStr) (size overlap : Nat) :
    ∀ fuel start c, c ∈ chunkLoop text size overlap start fuel →
      c ≠ [] ∧ c.length ≤ size := by
  intro fuel
  induction fuel with
  | zero => intro start c hc; simp [chunkLoop] at hc
  | succ f ih =>
    intro start c hc
    by_cases hs : start < text.length
    · simp only [chunkLoop, if_pos hs] at hc
      by_cases hz : pyStrip ((text.drop start).take size) = []
      · rw [if_pos hz] at hc
        exact ih _ c hc
      · rw [if_neg hz] at hc
        rcases List.mem_cons.mp hc with rfl | hmem
        · refine ⟨hz, ?_⟩
          calc (pyStrip ((text.drop start).take size)).length
              ≤ ((text.drop start).take size).length := length_pyStrip_le _
            _ ≤ size := by simp [List.length_take]
        · exact ih _ c hmem
    · rw [chunkLoop_stop text size overlap start (f + 1) hs] at hc
      simp at hc

end ChunkerLemmas

section ChunkerPairs

lemma window_no_space (text : PyStr) (start size : Nat)
    (hws : ∀ c ∈ text, isSpacePy c = false) :
    pyStrip ((text.drop start).take size) = (text.drop start).take size := by
  apply pyStrip_eq_self_of_no_space
  intro c hc
  exact hws c (List.mem_of_mem_drop (List.mem_of_mem_take hc))

lemma window_ne_nil (text : PyStr) (start size : Nat)
    (hs : start < text.length) (hsize : 0 < size) :
    (text.drop start).take size ≠ [] := by
  intro h
  rcases List.take_eq_nil_iff.mp h with h0 | hnil
  · omega
  · rw [List.drop_eq_nil_iff] at hnil
    omega

lemma chunkLoop_pair (text : PyStr) (size overlap : Nat)
    (hov : overlap < size) (hws : ∀ c ∈ text, isSpacePy c = false) :
    ∀ fuel start i c₁ c₂,
      (chunkLoop text size overlap start fuel).get? i = some c₁ →
      c₁.length = size →
      (chunkLoop text size overlap start fuel).get? (i + 1) = some c₂ →
      c₁.drop (size - overlap) = c₂.take overlap := by
  intro fuel
  induction fuel with
  | zero => intro start i c₁ c₂ h1 _ _; simp [chunkLoop] at h1
  | succ f ih =>
    intro start i c₁ c₂ h1 hfull h2
    by_cases hs : start < text.length
    · have hwin := window_no_space text start size hws
      have hne := window_ne_nil text start size hs (by omega)
      have hshape : chunkLoop text size overlap start (f + 1)
          = (text.drop start).take size
            :: chunkLoop text size overlap (start + size - overlap) f := by
        simp only [chunkLoop, if_pos hs, hwin, if_neg hne]
      rw [hshape] at h1 h2
      cases i with
      | zero =>
        rw [List.get?_cons_zero] at h1
        injection h1 with h1
        subst h1
        rw [List.get?_cons_succ] at h2
        -- peek at the head of the tail to identify c₂ as the next window
        have hc₂ : c₂ = (text.drop (start + size - overlap)).take size := by
          cases f with
          | zero => simp [chunkLoop] at h2
          | succ f2 =>
            by_cases hs2 : start + size - overlap < text.length
            · have hwin2 := window_no_space text (start + size - overlap) size hws
              have hne2 := window_ne_nil text (start + size - overlap) size hs2 (by omega)
              simp only [chunkLoop, if_pos hs2, hwin2, if_neg hne2,
                List.get?_cons_zero] at h2
              injection h2 with h2
              exact h2.symm
            · rw [chunkLoop_stop text size overlap _ _ hs2] at h2
              simp at h2
        subst hc₂
        have hlen : size ≤ (text.drop start).length := by
          have := hfull
          rw [List.length_take] at this
          omega
        rw [List.drop_take, List.take_take]
        have e1 : size - (size - overlap) = overlap := by omega
        have e2 : overlap ⊓ size = overlap := by omega
        rw [e1, e2, List.drop_drop]
        have e3 : start + (size - overlap) = start + size - overlap := by omega
        rw [e3]
      | succ i0 =>
        rw [List.get?_cons_succ] at h1 h2
        exact ih _ i0 c₁ c₂ h1 hfull h2
    · rw [chunkLoop_stop text size overlap start (f + 1) hs] at h1
      simp at h1

end ChunkerPairs

/-- Claim C5, counterexample: `chunk_text` strips each window, so for the
text `"a b"` with `size = 2 > overlap = 1 ≥ 0` the chunks are
`["a", "b", "b"]` and consecutive chunks do not share `overlap` characters
(`chunks[0][-1:] = "a"` but `chunks[1][:1] = "b"`). -/
theorem c5_counterexample :
    1 < 2 ∧
    chunk_text "a b".toList 2 1 = ["a".toList, "b".toList, "b".toList] ∧
    ¬ pyTakeLast 1 "a".toList = List.take 1 "b".toList := by
  refine ⟨by decide, by decide, by decide⟩

/-- Claim C5, amended: for whitespace-free text and `size > overlap > 0`,
whenever a chunk is a full window (its length equals `size`), it shares
exactly `overlap` characters with the following chunk
(`chunks[i][-overlap:] == chunks[i+1][:overlap]`).  On general text the
per-window `strip()` and the shorter final window break the invariant. -/
theorem c5_overlap_amended (text : PyStr) (size overlap i : Nat)
    (c₁ c₂ : PyStr) (hov : overlap < size) (hpos : 0 < overlap)
    (hws : ∀ c ∈ text, isSpacePy c = false)
    (h1 : (chunk_text text size overlap).get? i = some c₁)
    (hfull : c₁.length = size)
    (h2 : (chunk_text text size overlap).get? (i + 1) = some c₂) :
    pyTakeLast overlap c₁ = c₂.take overlap := by
  have h := chunkLoop_pair text size overlap hov hws text.length 0 i c₁ c₂ h1 hfull h2
  unfold pyTakeLast
  rw [if_neg (by omega), hfull]
  exact h

/-- Witness for C5 at a concrete input: in `chunk_text "abcdef" 4 2` the
full first chunk `"abcd"` shares its last 2 characters with the first 2 of
`"cdef"`. -/
theorem c5_overlap_amended_witness :
    (0 < 2 ∧ 2 < 4) ∧
    pyTakeLast 2 "abcd".toList = List.take 2 "cdef".toList :=
  ⟨⟨by decide, by decide⟩,
    c5_overlap_amended "abcdef".toList 4 2 0 "abcd".toList "cdef".toList
      (by decide) (by decide) (by decide) (by decide) (by decide) (by decide)⟩

/-- Claim C6, counterexample: `"ab"` is non-empty and shorter than
`size = 3`, but with `overlap = 2` the loop advances by `size - overlap = 1`
and produces two chunks, not one. -/
theorem c6_counterexample :
    "ab".toList ≠ [] ∧ "ab".toList.length < 3 ∧
    chunk_text "ab".toList 3 2 = ["ab".toList, "b".toList] ∧
    chunk_text "ab".toList 3 2 ≠ [pyStrip "ab".toList] := by
  refine ⟨by decide, by decide, by decide, by decide⟩

/-- Claim C6, amended: `chunk_text` of the empty string is the empty list,
and a non-empty text of length at most `size - overlap` yields exactly one
chunk equal to the stripped text (or no chunk at all if the text is pure
whitespace).  Texts with `size - overlap < length < size` yield extra
partial chunks. -/
theorem c6_base_amended :
    (∀ size overlap : Nat, chunk_text [] size overlap = []) ∧
    (∀ (text : PyStr) (size overlap : Nat), overlap < size → text ≠ [] →
      text.length ≤ size - overlap →
      chunk_text text size overlap =
        if pyStrip text = [] then [] else [pyStrip text]) := by
  constructor
  · intro size overlap; rfl
  · intro text size overlap hov hne hlen
    unfold chunk_text
    cases htext : text with
    | nil => exact absurd htext hne
    | cons c rest =>
      rw [← htext]
      have hlenpos : 0 < text.length := by rw [htext]; simp
      obtain ⟨m, hm⟩ : ∃ m, text.length = m + 1 :=
        ⟨text.length - 1, by omega⟩
      rw [hm]
      have hs : 0 < text.length := hlenpos
      simp only [chunkLoop, if_pos hs]
      have htake : (text.drop 0).take size = text := by
        rw [List.drop_zero]
        exact List.take_of_length_le (by omega)
      rw [htake]
      have hstop : chunkLoop text size overlap (0 + size - overlap) m = [] :=
        chunkLoop_stop text size overlap _ m (by omega)
      rw [hstop]

/-- Witness for C6 at a concrete input: `chunk_text "hi" 5 2 = ["hi"]`. -/
theorem c6_base_amended_witness :
    (2 < 5 ∧ "hi".toList ≠ [] ∧ "hi".toList.length ≤ 5 - 2) ∧
    chunk_text "hi".toList 5 2 = ["hi".toList] := by
  refine ⟨⟨by decide, by decide, by decide⟩, ?_⟩
  have h := c6_base_amended.2 "hi".toList 5 2 (by decide) (by decide) (by decide)
  rw [h]
  decide

/-- Claim C10: every chunk returned by `chunk_text` is non-empty and no
longer than `size` (for the terminating parameter range `overlap < size`). -/
theorem c10_chunk_wellformed (text : PyStr) (size overlap : Nat)
    (hov : overlap < size) (c : PyStr)
    (hc : c ∈ chunk_text text size overlap) :
    c ≠ [] ∧ c.length ≤ size :=
  chunkLoop_mem text size overlap text.length 0 c hc

/-- Witness for C10 at a concrete input: the first chunk of
`chunk_text "ab cd" 3 1` is non-empty and at most 3 characters long. -/
theorem c10_chunk_wellformed_witness :
    (0 : Nat) < 3 ∧ "ab".toList ∈ chunk_text "ab cd".toList 3 1 ∧
      ("ab".toList ≠ [] ∧ "ab".toList.length ≤ 3) :=
  ⟨by decide, by decide,
    c10_chunk_wellformed "ab cd".toList 3 1 (by decide) "ab".toList (by decide)⟩

section StringLemmas

lemma findSub_here (n y : PyStr) : findSub n (n ++ y) = some 0 := by
  cases n with
  | nil => cases y <;> simp [findSub]
  | cons nc nrest =>
    show (if (nc :: nrest) = ((nc :: nrest) ++ y).take (nc :: nrest).length
          then some 0
          else (findSub (nc :: nrest) (nrest ++ y)).map (· + 1)) = some 0
    rw [if_pos (List.take_left (nc :: nrest) y).symm]

lemma containsSub_middle (n x y : PyStr) : containsSub n (x ++ n ++ y) = true := by
  induction x with
  | nil =>
    simp only [List.nil_append]
    unfold containsSub
    rw [findSub_here]
    rfl
  | cons xc xrest ih =>
    unfold containsSub at ih ⊢
    show (findSub n (xc :: (xrest ++ n ++ y))).isSome = true
    unfold findSub
    by_cases h : n = (xc :: (xrest ++ n ++ y)).take n.length
    · rw [if_pos h]; rfl
    · rw [if_neg h]
      cases hf : findSub n (xrest ++ n ++ y) with
      | none => rw [hf] at ih; simp at ih
      | some k => simp [hf]

lemma splitPy_single (sep : Char) (s : PyStr) (h : sep ∉ s) :
    splitPy sep s = [s] := by
  induction s with
  | nil => rfl
  | cons c rest ih =>
    have hc : ¬ c = sep := by
      intro e; exact h (by simp [e])
    have hr : sep ∉ rest := fun hm => h (List.mem_cons_of_mem _ hm)
    unfold splitPy
    rw [if_neg hc, ih hr]

lemma pyStrip_decomp (s : PyStr) :
    ∃ a b, s = a ++ pyStrip s ++ b ∧ (∀ c ∈ a, isSpacePy c = true) ∧
      (∀ c ∈ b, isSpacePy c = true) := by
  refine ⟨s.takeWhile isSpacePy,
    ((s.dropWhile isSpacePy).reverse.takeWhile isSpacePy).reverse, ?_, ?_, ?_⟩
  · conv_lhs => rw [← List.takeWhile_append_dropWhile (p := isSpacePy) (l := s)]
    rw [List.append_assoc]
    congr 1
    unfold pyStrip
    conv_lhs => rw [← List.reverse_reverse (s.dropWhile isSpacePy),
      ← List.takeWhile_append_dropWhile (p := isSpacePy)
        (l := (s.dropWhile isSpacePy).reverse),
      List.reverse_append]
  · intro c hc; exact List.mem_takeWhile_imp hc
  · intro c hc
    rw [List.mem_reverse] at hc
    exact List.mem_takeWhile_imp hc

lemma pipe_not_mem_of_strip_none (s : PyStr)
    (hN : pyUpper (pyStrip s) = "NONE".toList) : '|' ∉ s := by
  obtain ⟨a, b, hdecomp, ha, hb⟩ := pyStrip_decomp s
  intro hmem
  rw [hdecomp] at hmem
  rcases List.mem_append.mp hmem with h1 | h2
  · rcases List.mem_append.mp h1 with h1a | h1m
    · exact absurd (ha _ h1a) (by decide)
    · have hup : toUpperPy '|' ∈ pyUpper (pyStrip s) :=
        List.mem_map_of_mem _ h1m
      rw [hN] at hup
      have e : toUpperPy '|' = '|' := by decide
      rw [e] at hup
      exact absurd hup (by decide)
  · exact absurd (hb _ h2) (by decide)

lemma containsSub_none_of_strip_none (s : PyStr)
    (hN : pyUpper (pyStrip s) = "NONE".toList) :
    containsSub "NONE".toList (pyUpper s) = true := by
  obtain ⟨a, b, hdecomp, _, _⟩ := pyStrip_decomp s
  rw [hdecomp]
  unfold pyUpper
  rw [List.map_append, List.map_append]
  rw [show (pyStrip s).map toUpperPy = "NONE".toList from hN]
  exact containsSub_middle _ _ _

end StringLemmas

section ValidatorClaimLemmas

lemma validator_clean_none_eq_filter (text : PyStr) :
    Validator.clean_none text =
      joinSep " | ".toList
        (((splitPy '|' text).filter
          (fun seg => ¬ containsSub "NONE".toList (pyUpper seg))).map pyStrip) := by
  rw [Validator.clean_none]
  by_cases h : text = [] ∨ pyUpper (pyStrip text) = "NONE".toList
  · rw [if_pos h]
    rcases h with rfl | hN
    · decide
    · rw [splitPy_single '|' text (pipe_not_mem_of_strip_none text hN)]
      have hc : containsSub ['N', 'O', 'N', 'E'] (pyUpper text) = true :=
        containsSub_none_of_strip_none text hN
      simp [hc]
      rfl
  · rw [if_neg h]

end ValidatorClaimLemmas

/-- Claim C1, counterexample: in `bot_core/validation.py`, `validate_numbers`
checks substring containment of each extracted number in the raw source, so
the candidate `"payment invoice 123"` passes against the source
`"payment invoice 1234"` and `validate_summary` returns it, although the
digit-run `123` does not occur as a digit-run of the source. -/
theorem c1_counterexample :
    Validation.clean_none "payment invoice 123".toList =
      "payment invoice 123".toList ∧
    "123".toList ∈ digitRuns "payment invoice 123".toList ∧
    "123".toList ∉ digitRuns "payment invoice 1234".toList ∧
    Validation.validate_summary "payment invoice 123".toList
        "payment invoice 1234".toList (35, 100) =
      some "payment invoice 123".toList := by
  refine ⟨by decide, by decide, by decide, by decide⟩

/-- Claim C1, amended: number-grounding soundness holds for the
`bot_core/validator.py` variant.  If the NONE-stripped candidate contains a
digit-run that does not occur as a digit-run of the source text,
`validate_summary` returns `None`. -/
theorem c1_number_grounding (summary original r : PyStr)
    (hmem : r ∈ digitRuns (Validator.clean_none summary))
    (habs : r ∉ digitRuns original) :
    Validator.validate_summary summary original (35, 100) = none := by
  have hnum : Validator.validate_numbers (Validator.clean_none summary) original
      = false := by
    rw [Bool.eq_false_iff]
    intro hall
    rw [Validator.validate_numbers, List.all_eq_true] at hall
    have h := hall r hmem
    rw [decide_eq_true_eq] at h
    exact habs h
  rw [Validator.validate_summary]
  by_cases h1 : summary = [] ∨ pyUpper (pyStrip summary) = "NONE".toList
  · rw [if_pos h1]
  · rw [if_neg h1]
    by_cases h2 : Validator.clean_none summary = []
    · simp [h2]
    · simp [h2, hnum]

/-- Witness for the amended C1: the spec's own example, a hallucinated
amount `999000` absent from the source, is rejected. -/
theorem c1_number_grounding_witness :
    "999000".toList ∈
      digitRuns (Validator.clean_none "СУММА: 999000".toList) ∧
    "999000".toList ∉
      digitRuns "Оплатить счёт №123 на сумму 150000 рублей до 20.12.2024".toList ∧
    Validator.validate_summary "СУММА: 999000".toList
        "Оплатить счёт №123 на сумму 150000 рублей до 20.12.2024".toList
        (35, 100) = none :=
  ⟨by decide, by decide,
    c1_number_grounding "СУММА: 999000".toList
      "Оплатить счёт №123 на сумму 150000 рублей до 20.12.2024".toList
      "999000".toList (by decide) (by decide)⟩

/-- Claim C2, counterexample: a date-shaped token inside a NONE-segment of
the raw candidate is stripped before the date check, so `validate_summary`
accepts a candidate containing the date `01.01.2099` absent from the
source. -/
theorem c2_counterexample :
    "01.01.2099".toList ∈
      dateFindall "payment invoice 123 | DATE: NONE 01.01.2099".toList ∧
    dateFindall "payment invoice 123".toList = [] ∧
    Validator.validate_summary
        "payment invoice 123 | DATE: NONE 01.01.2099".toList
        "payment invoice 123".toList (35, 100) =
      some "payment invoice 123".toList := by
  refine ⟨by decide, by decide, by decide⟩

/-- Claim C2, amended: date grounding holds for the NONE-stripped candidate:
if the cleaned candidate contains a date-shaped token whose normalization
matches no normalized date-shaped token of the source, `validate_summary`
returns `None`; and a summary containing no date-shaped token passes
`validate_dates` unconditionally. -/
theorem c2_date_grounding :
    (∀ summary original d : PyStr,
      d ∈ dateFindall (Validator.clean_none summary) →
      (∀ o ∈ dateFindall original, normDate d ≠ normDate o) →
      Validator.validate_summary summary original (35, 100) = none) ∧
    (∀ summary original : PyStr, dateFindall summary = [] →
      Validator.validate_dates summary original = true) := by
  constructor
  · intro summary original d hmem hnone
    have hdate : Validator.validate_dates (Validator.clean_none summary) original
        = false := by
      rw [Bool.eq_false_iff]
      intro hall
      rw [Validator.validate_dates, List.all_eq_true] at hall
      have h := hall d hmem
      rw [List.any_eq_true] at h
      obtain ⟨o, ho, heq⟩ := h
      rw [decide_eq_true_eq] at heq
      exact hnone o ho heq
    rw [Validator.validate_summary]
    by_cases h1 : summary = [] ∨ pyUpper (pyStrip summary) = "NONE".toList
    · rw [if_pos h1]
    · rw [if_neg h1]
      by_cases h2 : Validator.clean_none summary = []
      · simp [h2]
      · by_cases h3 :
          Validator.validate_numbers (Validator.clean_none summary) original = true
        · simp [h2, h3, hdate]
        · have h3f := Bool.eq_false_iff.mpr h3
          simp [h2, h3f]
  · intro summary original h
    rw [Validator.validate_dates, h]
    rfl

/-- Witness for the amended C2: a candidate date `01.01.2099` absent from
the source `"до 02.02.2000"` is rejected, and a dateless summary passes the
date check. -/
theorem c2_date_grounding_witness :
    "01.01.2099".toList ∈
      dateFindall (Validator.clean_none "до 01.01.2099".toList) ∧
    Validator.validate_summary "до 01.01.2099".toList
        "до 02.02.2000".toList (35, 100) = none ∧
    Validator.validate_dates "abc".toList "xyz".toList = true :=
  ⟨by decide,
    c2_date_grounding.1 "до 01.01.2099".toList "до 02.02.2000".toList
      "01.01.2099".toList (by decide) (by decide),
    c2_date_grounding.2 "abc".toList "xyz".toList (by decide)⟩

/-- Claim C3: `clean_none` removes exactly the `|`-segments containing
`none` case-insensitively (each kept segment stripped, rejoined with
`" | "`); the spec's example holds; and an input whose trimmed content is
`NONE` in any case is cleaned to the empty string, which makes
`validate_summary` return `None`. -/
theorem c3_none_elimination :
    (∀ text : PyStr, Validator.clean_none text =
      joinSep " | ".toList
        (((splitPy '|' text).filter
          (fun seg => ¬ containsSub "NONE".toList (pyUpper seg))).map pyStrip)) ∧
    Validator.clean_none "A: 100 | B: NONE | C: test".toList =
      "A: 100 | C: test".toList ∧
    (∀ (s o : PyStr) (minSim : Nat × Nat),
      pyUpper (pyStrip s) = "NONE".toList →
      Validator.clean_none s = [] ∧
      Validator.validate_summary s o minSim = none) := by
  refine ⟨validator_clean_none_eq_filter, by decide, ?_⟩
  intro s o minSim hN
  constructor
  · rw [Validator.clean_none, if_pos (Or.inr hN)]
  · rw [Validator.validate_summary, if_pos (Or.inr hN)]

/-- Witness for C3: the literal candidate `" nOnE "` trims to `NONE`
case-insensitively, is cleaned to the empty string and rejected. -/
theorem c3_none_elimination_witness :
    pyUpper (pyStrip " nOnE ".toList) = "NONE".toList ∧
    (Validator.clean_none " nOnE ".toList = [] ∧
     Validator.validate_summary " nOnE ".toList "anything".toList (35, 100) =
       none) :=
  ⟨by decide,
    c3_none_elimination.2.2 " nOnE ".toList "anything".toList (35, 100)
      (by decide)⟩

/-- Claim C4, counterexample: the removal regex requires a `|` before the
action segment, so a candidate whose action segment comes first keeps it
even though the source negates the verb within the 50-character window:
the result still contains `ДЕЙСТВИЕ: оплатить`. -/
theorem c4_counterexample :
    Validator.findAction
        (Validator.clean_none "ДЕЙСТВИЕ: оплатить | СУММА: 100".toList) =
      some "оплатить".toList ∧
    Validator.check_negation "не оплатить действие: | сумма: 100".toList
      "оплатить".toList = true ∧
    Validator.validate_summary "ДЕЙСТВИЕ: оплатить | СУММА: 100".toList
        "не оплатить действие: | сумма: 100".toList (35, 100) =
      some "ДЕЙСТВИЕ: оплатить | СУММА: 100".toList := by
  refine ⟨by decide, by decide, by decide⟩

/-- Claim C4, amended: when the matched action verb is negated in the
source, `validate_summary` deletes exactly the `|`-preceded,
uppercase-marked action segments (a leading action segment survives, see
the counterexample) and the result remains subject to the emptiness and
similarity gates; the spec's removal and retention examples hold. -/
theorem c4_negation_amended :
    Validator.validate_summary "ОПЛАТА: счёт | ДЕЙСТВИЕ: оплачивать".toList
        "оплата: счёт не оплачивать".toList (35, 100) =
      some "ОПЛАТА: счёт".toList ∧
    Validator.validate_summary "ОПЛАТА: счёт | ДЕЙСТВИЕ: оплатить".toList
        "срочно оплатить оплата: счёт".toList (35, 100) =
      some "ОПЛАТА: счёт | ДЕЙСТВИЕ: оплатить".toList ∧
    (∀ summary original verb : PyStr,
      Validator.clean_none summary ≠ [] →
      Validator.validate_numbers (Validator.clean_none summary) original = true →
      Validator.validate_dates (Validator.clean_none summary) original = true →
      Validator.findAction (Validator.clean_none summary) = some verb →
      Validator.check_negation original verb = true →
      Validator.validate_summary summary original (35, 100) =
        (if pyStrip (pyStripChars "|".toList
            (pyStrip (Validator.stripAction (Validator.clean_none summary)))) = []
         then none
         else Validator.vsTail
            (pyStrip (pyStripChars "|".toList
              (pyStrip (Validator.stripAction (Validator.clean_none summary)))))
            original (35, 100))) := by
  refine ⟨by decide, by decide, ?_⟩
  intro summary original verb hne hnum hdate hact hneg
  have h1 : ¬ (summary = [] ∨ pyUpper (pyStrip summary) = "NONE".toList) := by
    rintro (rfl | hN)
    · exact hne (by decide)
    · exact hne (by rw [Validator.clean_none, if_pos (Or.inr hN)])
  rw [Validator.validate_summary, if_neg h1]
  simp [hne, hnum, hdate, hact, hneg]

/-- Claim C7, counterexample: `format_summary` caps at 200 characters by a
bare slice, so a 300-character part is cut to 200 characters with no
ellipsis marker appended. -/
theorem c7_counterexample :
    format_summary [List.replicate 300 'a'] = List.replicate 200 'a' ∧
    (trim_segment (List.replicate 300 'a')).length = 300 ∧
    ¬ pyTakeLast 3 (format_summary [List.replicate 300 'a']) = "...".toList := by
  refine ⟨by decide, by decide, by decide⟩

/-- Claim C7, amended: the processor's `_build` output never exceeds 3500
characters and, when truncation occurs, ends with the ellipsis marker
`...`; the formatter's `format_summary` never exceeds its 200-character
cap but truncates by a bare slice (see the counterexample). -/
theorem c7_length_amended :
    (∀ (t s subj body : PyStr) (atts : List (PyStr × PyStr)),
      (assembleAndCap t s subj body atts).length ≤ 3500) ∧
    (∀ raw : PyStr, 3500 < raw.length →
      capLen3500 raw = raw.take 3497 ++ "...".toList ∧
      pyTakeLast 3 (capLen3500 raw) = "...".toList ∧
      (capLen3500 raw).length = 3500) ∧
    (∀ parts : List PyStr, (format_summary parts).length ≤ 200) := by
  refine ⟨?_, ?_, ?_⟩
  · intro t s subj body atts
    unfold assembleAndCap capLen3500
    by_cases h : 3500 < (assembleRaw t s subj body atts).length
    · rw [if_pos h]
      have htake :
          (List.take 3497 (assembleRaw t s subj body atts)).length = 3497 := by
        rw [List.length_take]; omega
      rw [List.length_append, htake]
      have h3 : ("...".toList).length = 3 := by decide
      rw [h3]
    · rw [if_neg h]
      omega
  · intro raw h
    have htake : (List.take 3497 raw).length = 3497 := by
      rw [List.length_take]; omega
    have h3 : ("...".toList).length = 3 := by decide
    unfold capLen3500
    rw [if_pos h]
    refine ⟨rfl, ?_, ?_⟩
    · unfold pyTakeLast
      rw [if_neg (by omega)]
      have hlen : (List.take 3497 raw ++ "...".toList).length - 3 =
          (List.take 3497 raw).length := by
        rw [List.length_append, htake, h3]
      rw [hlen, List.drop_left]
    · rw [List.length_append, htake, h3]
  · intro parts
    unfold format_summary MAX_LEN
    rw [List.length_take]
    omega

/-- Witness for the amended C7: a 3501-character result is capped at 3500
characters with a trailing ellipsis. -/
theorem c7_length_amended_witness :
    3500 < (List.replicate 3501 'a' : PyStr).length ∧
    (capLen3500 (List.replicate 3501 'a') =
        (List.replicate 3501 'a' : PyStr).take 3497 ++ "...".toList ∧
      pyTakeLast 3 (capLen3500 (List.replicate 3501 'a')) = "...".toList ∧
      (capLen3500 (List.replicate 3501 'a')).length = 3500) :=
  ⟨by rw [List.length_replicate]; omega,
    c7_length_amended.2.1 (List.replicate 3501 'a')
      (by rw [List.length_replicate]; omega)⟩

/-- Claim C8, counterexample: the long sparse line of `c8Input` survives the
first pass (six control characters among 410 characters are below the 2%
density threshold) but its whitespace-collapsed form, eleven characters with
the same six control characters, is classified as binary noise by the second
pass, so sanitization is not idempotent. -/
theorem c8_counterexample :
    sanitize_text c8Input 8000 =
      List.replicate 6 '\x01' ++ "ab cd".toList ∧
    sanitize_text (sanitize_text c8Input 8000) 8000 = [] ∧
    sanitize_text (sanitize_text c8Input 8000) 8000 ≠ sanitize_text c8Input 8000 := by
  refine ⟨by decide, by decide, by decide⟩

section SanitizeFixpoint

lemma replaceCRLF_eq_self (y : PyStr) (h : '\r' ∉ y) : replaceCRLF y = y := by
  induction y with
  | nil => rfl
  | cons c rest ih =>
    cases rest with
    | nil => rfl
    | cons c2 rest2 =>
      have hc : ¬ (c = '\r' ∧ c2 = '\n') := by
        rintro ⟨rfl, _⟩
        exact h (by simp)
      have ih2 := ih (fun hm => h (List.mem_cons_of_mem _ hm))
      simp only [replaceCRLF, if_neg hc]
      rw [ih2]

lemma map_eq_self_of {α : Type} (f : α → α) (l : List α)
    (h : ∀ c ∈ l, f c = c) : l.map f = l := by
  induction l with
  | nil => rfl
  | cons c rest ih =>
    rw [List.map_cons, h c (by simp), ih (fun x hx => h x (by simp [hx]))]

lemma mem_pyStrip (c : Char) (s : PyStr) (h : c ∈ pyStrip s) : c ∈ s := by
  obtain ⟨a, b, hd, _, _⟩ := pyStrip_decomp s
  rw [hd]
  exact List.mem_append.mpr (Or.inl (List.mem_append.mpr (Or.inr h)))

lemma cr_not_mem_squeezeWSAux (s : PyStr) :
    ∀ b : Bool, '\r' ∉ squeezeWSAux s b := by
  induction s with
  | nil => intro b h; simp [squeezeWSAux] at h
  | cons c rest ih =>
    intro b h
    rw [squeezeWSAux] at h
    by_cases hc : isSpacePy c
    · rw [if_pos hc] at h
      by_cases hb : b = true
      · rw [if_pos hb] at h; exact ih true h
      · rw [if_neg hb] at h
        rcases List.mem_cons.mp h with he | hm
        · exact absurd he (by decide)
        · exact ih true hm
    · rw [if_neg hc] at h
      rcases List.mem_cons.mp h with he | hm
      · apply hc; rw [← he]; decide
      · exact ih false hm

lemma cr_not_mem_of_collapseWS_fixed (l : PyStr) (h : collapseWS l = l) :
    '\r' ∉ l := by
  intro hm
  rw [← h] at hm
  exact cr_not_mem_squeezeWSAux _ false (mem_pyStrip _ _ hm)

lemma splitPy_ne_nil (sep : Char) (s : PyStr) : splitPy sep s ≠ [] := by
  cases s with
  | nil => simp [splitPy]
  | cons c rest =>
    unfold splitPy
    by_cases h : c = sep
    · rw [if_pos h]; simp
    · rw [if_neg h]
      cases splitPy sep rest <;> simp

lemma joinSep_splitPy (sep : Char) (y : PyStr) :
    joinSep [sep] (splitPy sep y) = y := by
  induction y with
  | nil => rfl
  | cons c rest ih =>
    unfold splitPy
    by_cases h : c = sep
    · rw [if_pos h]
      cases hs : splitPy sep rest with
      | nil => exact absurd hs (splitPy_ne_nil sep rest)
      | cons l ls =>
        rw [hs] at ih
        show joinSep [sep] ([] :: l :: ls) = c :: rest
        simp only [joinSep]
        rw [ih, h]
        rfl
    · rw [if_neg h]
      cases hs : splitPy sep rest with
      | nil => exact absurd hs (splitPy_ne_nil sep rest)
      | cons l ls =>
        rw [hs] at ih
        cases ls with
        | nil =>
          show joinSep [sep] [c :: l] = c :: rest
          simp only [joinSep] at ih ⊢
          rw [ih]
        | cons z zs =>
          show joinSep [sep] ((c :: l) :: z :: zs) = c :: rest
          simp only [joinSep] at ih ⊢
          rw [← ih]
          rfl

lemma mem_line_of_mem (ch sep : Char) (y : PyStr) (hm : ch ∈ y)
    (hne : ch ≠ sep) : ∃ l ∈ splitPy sep y, ch ∈ l := by
  induction y with
  | nil => simp at hm
  | cons c rest ih =>
    unfold splitPy
    by_cases h : c = sep
    · rw [if_pos h]
      rcases List.mem_cons.mp hm with he | hmm
      · exact absurd (he.trans h) hne
      · obtain ⟨l, hl, hchl⟩ := ih hmm
        exact ⟨l, List.mem_cons_of_mem _ hl, hchl⟩
    · rw [if_neg h]
      rcases List.mem_cons.mp hm with he | hmm
      · cases hs : splitPy sep rest with
        | nil => exact absurd hs (splitPy_ne_nil sep rest)
        | cons l ls => exact ⟨c :: l, by simp, by simp [he]⟩
      · obtain ⟨l, hl, hchl⟩ := ih hmm
        cases hs : splitPy sep rest with
        | nil => exact absurd hs (splitPy_ne_nil sep rest)
        | cons l0 ls =>
          rw [hs] at hl
          rcases List.mem_cons.mp hl with rfl | hl2
          · exact ⟨c :: l, by simp, List.mem_cons_of_mem _ hchl⟩
          · exact ⟨l, by simp [hl2], hchl⟩

lemma noAdjEmptyB_tail (a : PyStr) (rest : List PyStr)
    (h : noAdjEmptyB (a :: rest) = true) : noAdjEmptyB rest = true := by
  cases rest with
  | nil => rfl
  | cons b bs =>
    rw [noAdjEmptyB, decide_eq_true_eq] at h
    exact h.2

lemma noAdjEmptyB_head (a z : PyStr) (zs : List PyStr)
    (h : noAdjEmptyB (a :: z :: zs) = true) (ha : a = []) : z ≠ [] := by
  rw [noAdjEmptyB, decide_eq_true_eq] at h
  rcases h.1 with h1 | h2
  · exact absurd ha h1
  · exact h2

lemma collapseLines_fixed :
    ∀ (ls : List PyStr) (b : Bool),
      (∀ l ∈ ls, collapseWS l = l) →
      noAdjEmptyB ls = true →
      (b = true → ∀ z zs, ls = z :: zs → z ≠ []) →
      collapseLines ls b = ls := by
  intro ls
  induction ls with
  | nil => intro b _ _ _; rfl
  | cons l rest ih =>
    intro b hcomp hadj hflag
    simp only [collapseLines]
    rw [hcomp l (by simp)]
    by_cases hl : l = []
    · rw [if_pos hl]
      have hb : b = false := by
        cases b with
        | false => rfl
        | true => exact absurd hl (hflag rfl l rest rfl)
      subst hb
      rw [if_neg (by simp)]
      subst hl
      congr 1
      apply ih true
      · intro x hx; exact hcomp x (by simp [hx])
      · exact noAdjEmptyB_tail _ _ hadj
      · intro _ z zs hz
        subst hz
        exact noAdjEmptyB_head _ _ _ hadj rfl
    · rw [if_neg hl]
      congr 1
      apply ih false
      · intro x hx; exact hcomp x (by simp [hx])
      · exact noAdjEmptyB_tail _ _ hadj
      · intro hcontra; exact absurd hcontra (by simp)

lemma sanitize_fixpoint (y : PyStr) (m : Nat)
    (hcompact : ∀ l ∈ splitPy '\n' y, collapseWS l = l)
    (hbom : ∀ l ∈ splitPy '\n' y, pyStripChars ['﻿'] l = l)
    (hbin : ∀ l ∈ splitPy '\n' y, is_binaryish l = false)
    (hadj : noAdjEmptyB (splitPy '\n' y) = true)
    (hstrip : pyStrip y = y)
    (hlen : y.length ≤ m) :
    sanitize_text y m = y := by
  have hcr : '\r' ∉ y := by
    intro hm
    obtain ⟨l, hl, hcl⟩ := mem_line_of_mem '\r' '\n' y hm (by decide)
    exact cr_not_mem_of_collapseWS_fixed l (hcompact l hl) hcl
  have hnul : '\x00' ∉ y := by
    intro hm
    obtain ⟨l, hl, hcl⟩ := mem_line_of_mem '\x00' '\n' y hm (by decide)
    have hb := hbin l hl
    rw [is_binaryish] at hb
    rw [if_neg (by rintro rfl; simp at hcl), if_pos hcl] at hb
    simp at hb
  have h1 : replaceCRLF y = y := replaceCRLF_eq_self y hcr
  have h2 : y.map (fun c => if c = '\r' then '\n' else c) = y :=
    map_eq_self_of _ _ (fun c hc => by
      rw [if_neg]; rintro rfl; exact hcr hc)
  have h3 : y.filter (fun c => ¬ c = '\x00') = y :=
    List.filter_eq_self.mpr (fun c hc => by
      rw [decide_eq_true_eq]; rintro rfl; exact hnul hc)
  have h4 : (splitPy '\n' y).map (pyStripChars ['﻿']) = splitPy '\n' y :=
    map_eq_self_of _ _ hbom
  have h5 : (splitPy '\n' y).filter (fun l => ¬ is_binaryish l)
      = splitPy '\n' y :=
    List.filter_eq_self.mpr (fun l hl => by
      rw [decide_eq_true_eq, hbin l hl]; simp)
  have h6 : collapseLines (splitPy '\n' y) false = splitPy '\n' y :=
    collapseLines_fixed _ false hcompact hadj (fun hcontra => by simp at hcontra)
  simp only [sanitize_text]
  rw [h1, h2, h3, h4, h5, h6, joinSep_splitPy '\n' y, hstrip]
  rw [if_neg (by omega)]

end SanitizeFixpoint

/-- Claim C8, amended: sanitization is idempotent on inputs whose first
output is in sanitized normal form — in particular, whose lines are not
re-classified as binary noise by a second pass (the counterexample shows
this can fail after whitespace collapsing) and carry no byte-order marks at
their ends, and whose length is within `max_len` (for `max_len < 3` the
negative Python slice bound makes the ellipsis truncation grow the string).
The whitespace-canonical line shape, the absence of adjacent blank lines
and outer-trimmedness named in the remaining hypotheses hold for every
`sanitize_text` output. -/
theorem c8_idempotence_amended (x : PyStr) (m : Nat)
    (hbin : ∀ l ∈ splitPy '\n' (sanitize_text x m), is_binaryish l = false)
    (hbom : ∀ l ∈ splitPy '\n' (sanitize_text x m),
      pyStripChars ['﻿'] l = l)
    (hcompact : ∀ l ∈ splitPy '\n' (sanitize_text x m), collapseWS l = l)
    (hadj : noAdjEmptyB (splitPy '\n' (sanitize_text x m)) = true)
    (hstrip : pyStrip (sanitize_text x m) = sanitize_text x m)
    (hlen : (sanitize_text x m).length ≤ m) :
    sanitize_text (sanitize_text x m) m = sanitize_text x m :=
  sanitize_fixpoint (sanitize_text x m) m hcompact hbom hbin hadj hstrip hlen

/-- Witness for the amended C8: sanitizing a message containing a PNG-chunk
marker line is idempotent — the marker line is dropped once and the result
is a fixpoint. -/
theorem c8_idempotence_amended_witness :
    (∀ l ∈ splitPy '\n' (sanitize_text "hello\nIHDR junk\nworld".toList 8000),
      is_binaryish l = false) ∧
    sanitize_text (sanitize_text "hello\nIHDR junk\nworld".toList 8000) 8000 =
      sanitize_text "hello\nIHDR junk\nworld".toList 8000 :=
  ⟨by decide,
    c8_idempotence_amended "hello\nIHDR junk\nworld".toList 8000
      (by decide) (by decide) (by decide) (by decide) (by decide) (by decide)⟩

/-- Claim C9, counterexample: `classify_by_keywords` performs no keyword
counting; for a PDF it returns confidence `1.0`, which is none of the
claimed tier values `0.95`, `0.85`, `0.70`, `0.0`. -/
theorem c9_counterexample :
    classify_by_keywords "report.pdf".toList [] "application/pdf".toList =
      (some "PDF".toList, 1) ∧
    ¬ ((1 : ℚ) = 95 / 100 ∨ (1 : ℚ) = 85 / 100 ∨ (1 : ℚ) = 7 / 10 ∨
       (1 : ℚ) = 0) := by
  constructor
  · rfl
  · push_neg
    refine ⟨by norm_num, by norm_num, by norm_num, by norm_num⟩

/-- Claim C9, amended: `classify_by_keywords` is a wrapper around the
deterministic `classify_attachment` (MIME map, then extension map; no
content bytes): the text sample is ignored, and the confidence is always
`1.0` for a recognized category and `0.0` otherwise — never the keyword
tiers of the claim. -/
theorem c9_classifier_amended (filename textSample contentType : PyStr) :
    classify_by_keywords filename textSample contentType =
      (if classify_attachment filename contentType [] = "UNKNOWN".toList
       then (none, 0)
       else (some (classify_attachment filename contentType []), 1)) ∧
    classify_by_keywords filename textSample contentType =
      classify_by_keywords filename [] contentType ∧
    ((classify_by_keywords filename textSample contentType).2 = 0 ∨
     (classify_by_keywords filename textSample contentType).2 = 1) := by
  refine ⟨rfl, rfl, ?_⟩
  rw [classify_by_keywords]
  by_cases h : classify_attachment filename contentType [] = "UNKNOWN".toList
  · rw [if_pos h]; left; rfl
  · rw [if_neg h]; right; rfl

/-- Witness for the amended C4 at the spec's removal example. -/
theorem c4_negation_amended_witness :
    Validator.clean_none "ОПЛАТА: счёт | ДЕЙСТВИЕ: оплачивать".toList ≠ [] ∧
    Validator.findAction
        (Validator.clean_none "ОПЛАТА: счёт | ДЕЙСТВИЕ: оплачивать".toList) =
      some "оплачивать".toList ∧
    Validator.check_negation "оплата: счёт не оплачивать".toList
      "оплачивать".toList = true ∧
    Validator.validate_summary "ОПЛАТА: счёт | ДЕЙСТВИЕ: оплачивать".toList
        "оплата: счёт не оплачивать".toList (35, 100) =
      (if pyStrip (pyStripChars "|".toList
          (pyStrip (Validator.stripAction
            (Validator.clean_none
              "ОПЛАТА: счёт | ДЕЙСТВИЕ: оплачивать".toList)))) = []
       then none
       else Validator.vsTail
          (pyStrip (pyStripChars "|".toList
            (pyStrip (Validator.stripAction
              (Validator.clean_none
                "ОПЛАТА: счёт | ДЕЙСТВИЕ: оплачивать".toList)))))
          "оплата: счёт не оплачивать".toList (35, 100)) :=
  ⟨by decide, by decide, by decide,
    c4_negation_amended.2.2 "ОПЛАТА: счёт | ДЕЙСТВИЕ: оплачивать".toList
      "оплата: счёт не оплачивать".toList "оплачивать".toList
      (by decide) (by decide) (by decide) (by decide) (by decide)⟩
